import Mathlib

/-!
Verification of the gapless audio-playback core of the
Gemini-Conversational-Voice-AI-Demo repository.

The embedding below translates, into Lean, the parts of the repository
that the verified claims are about:

* the PCM chunk decoder (`decodeAudioData` from `utils/audioUtils`, which
  is not part of the delivered sources and is therefore modelled from the
  specification text);
* the streaming playback scheduler: the model-audio branch of
  `handleOnMessage` together with `stopAudioPlayback` (file
  `src/unnamed/part_001`), and the variant streaming handler contained in
  `src/components/PersonaModal.tsx` which additionally resumes a suspended
  output context;
* the single-clip replay controller of the `AudioPlayer` component
  (file `src/unnamed/part_000`);
* the `turnComplete` transcript update and `mergeUint8Arrays`
  (file `src/unnamed/part_001`).

Times and durations are represented as rationals; byte buffers as lists
of naturals (each a byte value).
-/

/-! ### Chunk decoder (modelled from the spec) -/

/-- Modelled from the spec: `decodeAudioData` lives in `utils/audioUtils`,
which is not among the delivered source files.  Per the spec, each input
sample is a signed 16-bit little-endian integer.  `int16OfBytes lo hi`
reassembles the signed value from its low and high bytes. -/
def int16OfBytes (lo hi : ℕ) : ℤ :=
  let u : ℕ := lo % 256 + 256 * (hi % 256)
  if u < 32768 then (u : ℤ) else (u : ℤ) - 65536

/-- Modelled from the spec: a decoded sample is the signed 16-bit value
divided by 32768, giving a normalized value in [-1, 1). -/
def toFloatSample (lo hi : ℕ) : ℚ :=
  (int16OfBytes lo hi : ℚ) / 32768

/-- Modelled from the spec: the byte stream is consumed two bytes
(one 16-bit little-endian sample) at a time; a trailing incomplete
sample is discarded, the boundary policy the spec names for odd-length
input. -/
def pcmSamples : List ℕ → List ℚ
  | [] => []
  | [_] => []
  | lo :: hi :: rest => toFloatSample lo hi :: pcmSamples rest

/-- Modelled from the spec: the duration of a decoded buffer is
`byteLength / 2 / channelCount / sampleRate` seconds. -/
def pcmDuration (bytes : List ℕ) (channels rate : ℚ) : ℚ :=
  (bytes.length : ℚ) / 2 / channels / rate

/-- Modelled from the spec: a DecodedBuffer is a normalized sample list
plus its sample rate and duration. -/
structure DecodedBuffer where
  samples : List ℚ
  rate : ℚ
  duration : ℚ
deriving DecidableEq

/-- Modelled from the spec: `decodeAudioData` as a total, pure function of
the raw bytes, the target sample rate and the channel count. -/
def decodeAudioData (bytes : List ℕ) (rate channels : ℚ) : DecodedBuffer :=
  { samples := pcmSamples bytes
    rate := rate
    duration := pcmDuration bytes channels rate }

/-! ### Playback scheduler (src/unnamed/part_001, handleOnMessage model-audio
branch, lines 132-146, and stopAudioPlayback, lines 77-85) -/

/-- One `AudioBufferSourceNode` as the scheduler sees it: the time passed to
`source.start`, whether `start` was called, and whether `stop` was called. -/
structure Source where
  startAt : ℚ
  started : Bool
  stopped : Bool
deriving DecidableEq

/-- `source.stop()` in the Web Audio API: raises InvalidStateError when the
node was never started, otherwise marks it stopped (stopping a node that
already ended or was already stopped is permitted and has no effect). -/
def sourceStop (s : Source) : Except String Source :=
  if s.started then .ok { s with stopped := true } else .error "InvalidStateError"

/-- `try { source.stop(); } catch (e) {}` from `stopAudioPlayback`
(src/unnamed/part_001 line 80): a failing stop is swallowed and leaves the
node unchanged. -/
def tryStop (s : Source) : Source :=
  match sourceStop s with
  | .ok t => t
  | .error _ => s

/-- The scheduler state held in the React refs of `src/unnamed/part_001`:
`nextStartTimeRef` (the cursor), `currentModelAudioChunksRef` (the raw
chunks of the current turn), the source nodes created so far
(`allSources`, a ledger of the Web Audio objects) with
`audioSourcesRef` as the list `live` of indices into that ledger, whether
`outputAudioContextRef.current` is non-null (`hasContext`), and whether
that context is in the suspended state (`suspended`). -/
structure SchedState where
  cursor : ℚ
  chunks : List (List ℕ)
  allSources : List Source
  live : List ℕ
  hasContext : Bool
  suspended : Bool
deriving DecidableEq

/-- `currentModelAudioChunksRef.current.push(decoded)`
(src/unnamed/part_001 line 135). -/
def pushChunk (st : SchedState) (bytes : List ℕ) : SchedState :=
  { st with chunks := st.chunks ++ [bytes] }

/-- `nextStartTimeRef.current = Math.max(nextStartTimeRef.current,
audioContext.currentTime)` (src/unnamed/part_001 line 137); `now` is the
value read from `audioContext.currentTime`. -/
def bumpCursor (st : SchedState) (now : ℚ) : SchedState :=
  { st with cursor := max st.cursor now }

/-- Lines 139-145 of src/unnamed/part_001: create a source node for the
decoded buffer, `source.start(nextStartTimeRef.current)`, advance
`nextStartTimeRef.current += audioBuffer.duration`, and add the node to
`audioSourcesRef.current`.  Returns the new state and the time the source
was started at. -/
def scheduleBuf (st : SchedState) (dur : ℚ) : SchedState × ℚ :=
  let src : Source := { startAt := st.cursor, started := true, stopped := false }
  ({ st with
      allSources := st.allSources ++ [src]
      live := st.live ++ [st.allSources.length]
      cursor := st.cursor + dur },
   st.cursor)

/-- The model-audio branch of `handleOnMessage` in src/unnamed/part_001
(lines 132-146), run without interleaving: push the decoded bytes, take the
max of the cursor and the clock, decode (24000 Hz, 1 channel), schedule.
Returns the new state and the scheduled start time. -/
def enqueueChunk (st : SchedState) (now : ℚ) (bytes : List ℕ) : SchedState × ℚ :=
  scheduleBuf (bumpCursor (pushChunk st bytes) now)
    (decodeAudioData bytes 24000 1).duration

/-- The part of the model-audio branch that runs before the
`await decodeAudioData(...)` suspension point (src/unnamed/part_001 lines
134-137): the chunk push and the cursor bump. -/
def enqueuePreAwait (st : SchedState) (now : ℚ) (bytes : List ℕ) : SchedState :=
  bumpCursor (pushChunk st bytes) now

/-- The part of the model-audio branch that runs after the
`await decodeAudioData(...)` suspension point (src/unnamed/part_001 lines
139-145).  Both `source.start(nextStartTimeRef.current)` and the cursor
advance re-read the ref at this point, so they see any mutation performed
while the decode was in flight. -/
def enqueuePostAwait (st : SchedState) (bytes : List ℕ) : SchedState × ℚ :=
  scheduleBuf st (decodeAudioData bytes 24000 1).duration

/-- The `audioSourcesRef.current.forEach(source => { try { source.stop() }
catch (e) {} })` loop: walking the source ledger from index `k`, apply
`tryStop` to exactly the sources whose index is in the live set. -/
def stopSources (live : List ℕ) (k : ℕ) : List Source → List Source
  | [] => []
  | s :: rest => (if k ∈ live then tryStop s else s) :: stopSources live (k + 1) rest

/-- `stopAudioPlayback` (src/unnamed/part_001 lines 77-85): when the output
context exists, stop every source currently in `audioSourcesRef.current`
(each stop individually wrapped in try/catch), clear the set, and set
`nextStartTimeRef.current = 0`. -/
def stopAudioPlayback (st : SchedState) : SchedState :=
  if st.hasContext then
    { st with
        allSources := stopSources st.live 0 st.allSources
        live := []
        cursor := 0 }
  else st

/-- The `interrupted` branch of `handleOnMessage` (src/unnamed/part_001
lines 148-151): stop playback and drop the accumulated chunks of the
current turn. -/
def interruptedBranch (st : SchedState) : SchedState :=
  { stopAudioPlayback st with chunks := [] }

/-- The duration the decoder assigns to one streaming chunk (24000 Hz,
1 channel, as in src/unnamed/part_001 line 138). -/
def chunkDur (p : ℚ × List ℕ) : ℚ :=
  (decodeAudioData p.2 24000 1).duration

/-- Run the model-audio branch once per arriving chunk, in arrival order and
with no interleaving; each list element pairs the clock reading taken by that
call with the raw chunk bytes.  Returns the final state and the list of
scheduled start times. -/
def enqueueSeq : SchedState → List (ℚ × List ℕ) → SchedState × List ℚ
  | st, [] => (st, [])
  | st, (now, bytes) :: rest =>
      let p := enqueueChunk st now bytes
      let q := enqueueSeq p.1 rest
      (q.1, p.2 :: q.2)

/-- The hypothesis of P1 in the spec: between enqueues the output clock
never overtakes the cursor, i.e. each clock reading is at most the cursor
value the corresponding call observes. -/
def clockBehind : ℚ → List (ℚ × List ℕ) → Prop
  | _, [] => True
  | c, (now, bytes) :: rest => now ≤ c ∧ clockBehind (c + chunkDur (now, bytes)) rest

/-! ### The variant streaming handler of src/components/PersonaModal.tsx -/

/-- The model-audio branch of the `handleOnMessage` variant embedded in
src/components/PersonaModal.tsx (lines 314-331): after pushing the decoded
bytes it runs `if (audioContext.state === suspended) await
audioContext.resume();` before the cursor bump and the scheduling.
`resumeOk` records whether that resume succeeded; when it fails, the
rejection propagates out of the async handler, so nothing after the await
runs: the chunk is never scheduled and the failure is reported to the
caller of the handler as a rejected promise. -/
def enqueueChunkV2 (st : SchedState) (now : ℚ) (bytes : List ℕ) (resumeOk : Bool) :
    Except String (SchedState × ℚ) :=
  let st1 := pushChunk st bytes
  if st1.suspended then
    if resumeOk then
      .ok (scheduleBuf (bumpCursor { st1 with suspended := false } now)
        (decodeAudioData bytes 24000 1).duration)
    else .error "AudioContext resume failed"
  else
    .ok (scheduleBuf (bumpCursor st1 now) (decodeAudioData bytes 24000 1).duration)

/-! ### Single-clip replay controller (src/unnamed/part_000, AudioPlayer) -/

/-- The state of the `AudioPlayer` component of src/unnamed/part_000:
the committed React state (`offset` for `playbackOffset`, `playing` for
`isPlaying`, `dur` for `duration`) together with the refs, which are always
current (`startedAt` for `startTimeRef.current`, `hasSource` for whether
`sourceNodeRef.current` is non-null). -/
structure Player where
  offset : ℚ
  playing : Bool
  dur : ℚ
  startedAt : ℚ
  hasSource : Bool
deriving DecidableEq

/-- The body of `handlePlay` (src/unnamed/part_000 lines 38-63) given the
`playbackOffset` value captured by the render closure that runs it
(`envOffset`): create and start a source at offset `startAt = envOffset`,
record `startTimeRef.current = audioContextRef.current.currentTime`, keep
the source in `sourceNodeRef`, and set `isPlaying` to true.  Returns the
new state and the offset the source starts playing from. -/
def handlePlayEnv (envOffset : ℚ) (store : Player) (now : ℚ) : Player × ℚ :=
  ({ store with startedAt := now, hasSource := true, playing := true }, envOffset)

/-- `handlePlay` as run by a user click: the click is handled by the render
that shows the committed state, so the captured `playbackOffset` is the
committed one. -/
def handlePlay (p : Player) (now : ℚ) : Player × ℚ :=
  handlePlayEnv p.offset p now

/-- `handlePause` (src/unnamed/part_000 lines 65-72): when a source exists
and the player is playing, stop the source and persist
`min(prev + (currentTime - startTimeRef.current), duration)` as the new
offset via the functional state update; otherwise do nothing. -/
def handlePause (p : Player) (now : ℚ) : Player :=
  if p.hasSource && p.playing then
    { p with offset := min (p.offset + (now - p.startedAt)) p.dur, playing := false }
  else p

/-- One pause/resume cycle: resume playback (click on a fresh render) at
clock time `now`, play for `t` seconds, pause. -/
def playCycle (p : Player) (now t : ℚ) : Player :=
  handlePause (handlePlay p now).1 (now + t)

/-- `handleReplay` (src/unnamed/part_000 lines 74-81) as executed: stop the
current source, commit `setPlaybackOffset(0)` and `setIsPlaying(false)`,
then `setTimeout(handlePlay, 10)`.  The `handlePlay` invoked by the timeout
is the closure of the render in which replay was clicked, so the
`playbackOffset` it reads is the value captured by that render, `p.offset` --
not the freshly committed zero.  Returns the new state and the offset the
new source starts playing from. -/
def handleReplayRun (p : Player) (now : ℚ) : Player × ℚ :=
  handlePlayEnv p.offset { p with offset := 0, playing := false } now

/-! ### mergeUint8Arrays and the turnComplete transcript update
(src/unnamed/part_001 lines 18-27 and 114-130) -/

/-- `result.set(arr, offset)` on a typed array: overwrite the slice of
`result` starting at `offset` with `arr`. -/
def writeAt (result arr : List ℕ) (offset : ℕ) : List ℕ :=
  result.take offset ++ arr ++ result.drop (offset + arr.length)

/-- The loop of `mergeUint8Arrays`: write each array at the running offset,
advancing the offset by the array length. -/
def mergeLoop : List ℕ → ℕ → List (List ℕ) → List ℕ
  | result, _, [] => result
  | result, offset, arr :: rest =>
      mergeLoop (writeAt result arr offset) (offset + arr.length) rest

/-- `arrays.reduce((acc, arr) => acc + arr.length, 0)`. -/
def totalLength (arrays : List (List ℕ)) : ℕ :=
  (arrays.map List.length).sum

/-- `mergeUint8Arrays` (src/unnamed/part_001 lines 18-27): allocate a
zero-filled buffer of the total length, then copy each array in at the
running offset. -/
def mergeUint8Arrays (arrays : List (List ℕ)) : List ℕ :=
  mergeLoop (List.replicate (totalLength arrays) 0) 0 arrays

/-- The `speaker` field of a transcript entry (src types.ts). -/
inductive Speaker
  | user
  | model
deriving DecidableEq

/-- The `mode` field of a transcript entry (src types.ts). -/
inductive ChatMode
  | streaming
  | batch
deriving DecidableEq

/-- A `TranscriptEntry` (src types.ts): speaker role, display text, mode
tag, optional raw PCM payload, and a timestamp. -/
structure TranscriptEntry where
  speaker : Speaker
  text : String
  mode : ChatMode
  pcmData : Option (List ℕ)
  timestamp : ℤ
deriving DecidableEq

/-- `prev.map(t => t.speaker).lastIndexOf(model)` from the turnComplete
branch (src/unnamed/part_001 line 118): the greatest index holding a model
entry, or `none` when there is none (the source encodes that as -1). -/
def lastModelIdx : List TranscriptEntry → Option ℕ
  | [] => none
  | t :: rest =>
      match lastModelIdx rest with
      | some i => some (i + 1)
      | none => if t.speaker = Speaker.model then some 0 else none

/-- `newTranscripts[i] = { ...newTranscripts[i], pcmData: fullPcm }`
(src/unnamed/part_001 line 121): replace the entry at index `i` by the same
entry with the pcm payload attached. -/
def attachPcm : List TranscriptEntry → ℕ → List ℕ → List TranscriptEntry
  | [], _, _ => []
  | t :: rest, 0, pcm => { t with pcmData := some pcm } :: rest
  | t :: rest, n + 1, pcm => t :: attachPcm rest n pcm

/-- The `turnComplete` branch of `handleOnMessage` (src/unnamed/part_001
lines 114-130), restricted to the transcript list and the accumulated
chunk list: when chunks are pending, merge them, attach the result to the
last model entry (when one exists), and clear the chunk accumulator. -/
def applyTurnComplete (transcripts : List TranscriptEntry) (chunks : List (List ℕ)) :
    List TranscriptEntry × List (List ℕ) :=
  if chunks.length > 0 then
    let fullPcm := mergeUint8Arrays chunks
    let t2 :=
      match lastModelIdx transcripts with
      | some i => attachPcm transcripts i fullPcm
      | none => transcripts
    (t2, [])
  else (transcripts, chunks)

/-- A concrete scheduler state used to exercise `stopAudioPlayback`:
cursor at 7 seconds of backlog, two tracked sources (the second already
finished), output context present and running. -/
def exStopState : SchedState :=
  { cursor := 7
    chunks := []
    allSources := [⟨2, true, false⟩, ⟨3, true, true⟩]
    live := [0, 1]
    hasContext := true
    suspended := false }

/-- The scheduler state at session start: zero cursor, no pending chunks,
no sources, output context created and running (startStreaming creates the
24 kHz output context before any message arrives). -/
def sessionStart : SchedState :=
  { cursor := 0
    chunks := []
    allSources := []
    live := []
    hasContext := true
    suspended := false }

/-- The two later chunks of the spec scenario: 0.3 s and 0.7 s of 16-bit
mono PCM at 24 kHz are 14400 and 33600 bytes, both enqueued with the
output clock still at 0. -/
def scenarioRest : List (ℚ × List ℕ) :=
  [(0, List.replicate 14400 0), (0, List.replicate 33600 0)]

/-- A scheduler state whose output context exists but is suspended. -/
def exSuspState : SchedState :=
  { cursor := 0
    chunks := []
    allSources := []
    live := []
    hasContext := true
    suspended := true }

/-- A concrete transcript: a user entry, a model entry (the last model
entry, at index 1), and a trailing user entry. -/
def exTranscript : List TranscriptEntry :=
  [⟨Speaker.user, "q", ChatMode.streaming, none, 0⟩,
   ⟨Speaker.model, "a", ChatMode.streaming, none, 1⟩,
   ⟨Speaker.user, "r", ChatMode.streaming, none, 2⟩]

/-- Two concrete accumulated audio chunks. -/
def exChunks : List (List ℕ) :=
  [[1, 2], [3]]

/-! ### Claim C1 -/

/-- C1: for every call of the enqueue operation (the model-audio branch of
handleOnMessage), the scheduled start time equals
`max(cursor, outputClock.now())` taken at scheduling time, and afterwards
the cursor equals that start time plus the decoded buffer duration. -/
theorem enqueue_start_and_cursor (st : SchedState) (now : ℚ) (bytes : List ℕ) :
    (enqueueChunk st now bytes).2 = max st.cursor now ∧
    (enqueueChunk st now bytes).1.cursor =
      (enqueueChunk st now bytes).2 + (decodeAudioData bytes 24000 1).duration := by
  constructor <;> rfl

/-! ### Claim C4 -/

/-- C4: the scheduler cursor (nextStartTimeRef) is monotonically
non-decreasing across every enqueue operation. -/
theorem enqueue_cursor_monotone (st : SchedState) (now : ℚ) (bytes : List ℕ) :
    st.cursor ≤ (enqueueChunk st now bytes).1.cursor := by
  show st.cursor ≤ max st.cursor now + (decodeAudioData bytes 24000 1).duration
  have hd : 0 ≤ (decodeAudioData bytes 24000 1).duration := by
    show 0 ≤ (bytes.length : ℚ) / 2 / 1 / 24000
    positivity
  have hm : st.cursor ≤ max st.cursor now := le_max_left _ _
  linarith

/-! ### Claim C2: sequences of enqueues -/

lemma chunkDur_nonneg (p : ℚ × List ℕ) : 0 ≤ chunkDur p := by
  show (0:ℚ) ≤ (p.2.length : ℚ) / 2 / 1 / 24000
  positivity

lemma enqueueSeq_length : ∀ (l : List (ℚ × List ℕ)) (st : SchedState),
    (enqueueSeq st l).2.length = l.length
  | [], _ => rfl
  | (now, bytes) :: rest, st => by
      simp [enqueueSeq, enqueueSeq_length rest]

lemma enqueueChunk_fst_cursor (st : SchedState) (now : ℚ) (bytes : List ℕ) :
    (enqueueChunk st now bytes).1.cursor = max st.cursor now + chunkDur (now, bytes) := rfl

lemma enqueueSeq_cursor_of_behind : ∀ (l : List (ℚ × List ℕ)) (st : SchedState),
    clockBehind st.cursor l →
    (enqueueSeq st l).1.cursor = st.cursor + (l.map chunkDur).sum
  | [], st, _ => by simp [enqueueSeq]
  | (now, bytes) :: rest, st, h => by
      have hnow : now ≤ st.cursor := h.1
      have hcur : (enqueueChunk st now bytes).1.cursor = st.cursor + chunkDur (now, bytes) := by
        rw [enqueueChunk_fst_cursor, max_eq_left hnow]
      have hrest := enqueueSeq_cursor_of_behind rest (enqueueChunk st now bytes).1
        (by rw [hcur]; exact h.2)
      simp only [enqueueSeq, hrest, hcur, List.map_cons, List.sum_cons]
      ring

lemma enqueueSeq_get_of_behind : ∀ (l : List (ℚ × List ℕ)) (st : SchedState),
    clockBehind st.cursor l →
    ∀ (i : ℕ) (hi : i < (enqueueSeq st l).2.length),
      (enqueueSeq st l).2.get ⟨i, hi⟩ = st.cursor + ((l.map chunkDur).take i).sum
  | [], st, _, i, hi => by simp [enqueueSeq] at hi
  | (now, bytes) :: rest, st, h, i, hi => by
      have hnow : now ≤ st.cursor := h.1
      have hcur : (enqueueChunk st now bytes).1.cursor = st.cursor + chunkDur (now, bytes) := by
        rw [enqueueChunk_fst_cursor, max_eq_left hnow]
      match i with
      | 0 =>
          show max st.cursor now = _
          simp [max_eq_left hnow]
      | j + 1 =>
          have hj : j < (enqueueSeq (enqueueChunk st now bytes).1 rest).2.length := by
            have := hi
            simpa [enqueueSeq, enqueueSeq_length] using this
          have hrec := enqueueSeq_get_of_behind rest (enqueueChunk st now bytes).1
            (by rw [hcur]; exact h.2) j hj
          have hstep : (enqueueSeq st ((now, bytes) :: rest)).2.get ⟨j + 1, hi⟩ =
              (enqueueSeq (enqueueChunk st now bytes).1 rest).2.get ⟨j, hj⟩ := rfl
          rw [hstep, hrec, hcur]
          simp only [List.map_cons, List.take_succ_cons, List.sum_cons]
          ring

/-- C2: with no intervening interrupt, and the output clock never
overtaking the cursor after the first enqueue, the i-th scheduled start
equals the first start (the session initial start time, which is
`max(cursor, now)` at the first call) plus the durations of the chunks
before it; and the final cursor equals the initial start plus the total
duration, so the scheduled span is the sum of the chunk durations. -/
theorem enqueue_seq_cumulative_starts (st : SchedState) (now0 : ℚ) (bytes0 : List ℕ)
    (rest : List (ℚ × List ℕ))
    (h : clockBehind (max st.cursor now0 + chunkDur (now0, bytes0)) rest) :
    (∀ (i : ℕ) (hi : i < (enqueueSeq st ((now0, bytes0) :: rest)).2.length),
        (enqueueSeq st ((now0, bytes0) :: rest)).2.get ⟨i, hi⟩ =
          max st.cursor now0 + ((((now0, bytes0) :: rest).map chunkDur).take i).sum) ∧
    (enqueueSeq st ((now0, bytes0) :: rest)).1.cursor =
      max st.cursor now0 + (((now0, bytes0) :: rest).map chunkDur).sum := by
  have hcur : (enqueueChunk st now0 bytes0).1.cursor = max st.cursor now0 + chunkDur (now0, bytes0) :=
    enqueueChunk_fst_cursor st now0 bytes0
  have hbehind : clockBehind (enqueueChunk st now0 bytes0).1.cursor rest := by
    rw [hcur]; exact h
  constructor
  · intro i hi
    match i with
    | 0 => simp [enqueueSeq, enqueueChunk, scheduleBuf, bumpCursor, pushChunk]
    | j + 1 =>
        have hj : j < (enqueueSeq (enqueueChunk st now0 bytes0).1 rest).2.length := by
          have := hi
          simpa [enqueueSeq, enqueueSeq_length] using this
        have hrec := enqueueSeq_get_of_behind rest (enqueueChunk st now0 bytes0).1 hbehind j hj
        have hstep : (enqueueSeq st ((now0, bytes0) :: rest)).2.get ⟨j + 1, hi⟩ =
            (enqueueSeq (enqueueChunk st now0 bytes0).1 rest).2.get ⟨j, hj⟩ := rfl
        rw [hstep, hrec, hcur]
        simp only [List.map_cons, List.take_succ_cons, List.sum_cons]
        ring
  · have hrest := enqueueSeq_cursor_of_behind rest (enqueueChunk st now0 bytes0).1 hbehind
    have hfin : (enqueueSeq st ((now0, bytes0) :: rest)).1 =
        (enqueueSeq (enqueueChunk st now0 bytes0).1 rest).1 := rfl
    rw [hfin, hrest, hcur]
    simp only [List.map_cons, List.sum_cons]
    ring

/-! ### Claim C3 -/

lemma tryStop_of_started (s : Source) (h : s.started = true) :
    tryStop s = { s with stopped := true } := by
  simp [tryStop, sourceStop, h]

lemma stopSources_length (live : List ℕ) : ∀ (k : ℕ) (l : List Source),
    (stopSources live k l).length = l.length
  | _, [] => rfl
  | k, s :: rest => by simp [stopSources, stopSources_length live (k + 1) rest]

lemma stopSources_get (live : List ℕ) : ∀ (l : List Source) (k i : ℕ)
    (hi : i < (stopSources live k l).length) (hi0 : i < l.length),
    (stopSources live k l).get ⟨i, hi⟩ =
      if (k + i) ∈ live then tryStop (l.get ⟨i, hi0⟩) else l.get ⟨i, hi0⟩
  | [], k, i, hi, hi0 => by simp at hi0
  | s :: rest, k, 0, hi, hi0 => by simp [stopSources]
  | s :: rest, k, i + 1, hi, hi0 => by
      have hr : i < (stopSources live (k + 1) rest).length := by
        simpa [stopSources] using hi
      have hr0 : i < rest.length := by simpa using hi0
      have := stopSources_get live rest (k + 1) i hr hr0
      simp only [stopSources, List.get_cons_succ]
      rw [this]
      have hidx : k + 1 + i = k + (i + 1) := by omega
      rw [hidx]

lemma stopSources_nil_live : ∀ (k : ℕ) (l : List Source),
    stopSources [] k l = l
  | _, [] => rfl
  | k, s :: rest => by
      simp [stopSources, stopSources_nil_live (k + 1) rest]

/-- C3 counterexample: `stopAudioPlayback` sets the cursor to the constant
0, not to the output clock reading.  With the output clock standing at 5
seconds, the cursor after the call is 0, which differs from 5 (the
function takes no clock input at all, so it cannot return the clock
value). -/
theorem stop_cursor_not_clock_counterexample :
    (stopAudioPlayback exStopState).cursor = 0 ∧
    (stopAudioPlayback exStopState).cursor ≠ 5 := by
  constructor
  · rfl
  · intro h
    have : (0 : ℚ) = 5 := h
    norm_num at this

/-- C3 amended: when the output context exists and (as in every reachable
state, where sources are added to the set only after `source.start`) every
tracked source has been started, `stopAudioPlayback` stops every tracked
handle, leaves the live set empty, and resets the cursor to 0 -- not to
the output clock reading, but equivalent to no backlog, since the next
enqueue then schedules at exactly the clock reading; calling it twice in a
row, or with zero live handles, yields the same end state and raises no
error (each stop is wrapped in try/catch), and stopping an
already-finished handle leaves it unchanged rather than failing. -/
theorem stop_audio_playback_amended (st : SchedState)
    (hc : st.hasContext = true)
    (hs : ∀ (i : ℕ) (hi : i < st.allSources.length),
        i ∈ st.live → (st.allSources.get ⟨i, hi⟩).started = true) :
    (∀ (i : ℕ) (hi : i < (stopAudioPlayback st).allSources.length),
        i ∈ st.live → ((stopAudioPlayback st).allSources.get ⟨i, hi⟩).stopped = true) ∧
    (stopAudioPlayback st).live = [] ∧
    (stopAudioPlayback st).cursor = 0 ∧
    (∀ (now : ℚ), 0 ≤ now → ∀ (bytes : List ℕ),
        (enqueueChunk (stopAudioPlayback st) now bytes).2 = now) ∧
    stopAudioPlayback (stopAudioPlayback st) = stopAudioPlayback st ∧
    (∀ s : Source, s.started = true → s.stopped = true → tryStop s = s) := by
  have hstop : stopAudioPlayback st =
      { st with allSources := stopSources st.live 0 st.allSources, live := [], cursor := 0 } := by
    simp [stopAudioPlayback, hc]
  refine ⟨?_, ?_, ?_, ?_, ?_, ?_⟩
  · intro i hi hmem
    have hi0 : i < st.allSources.length := by
      have := hi
      rw [hstop] at this
      simpa [stopSources_length] using this
    have hget : (stopAudioPlayback st).allSources.get ⟨i, hi⟩ =
        if (0 + i) ∈ st.live then tryStop (st.allSources.get ⟨i, hi0⟩)
        else st.allSources.get ⟨i, hi0⟩ := by
      have hlist : (stopAudioPlayback st).allSources = stopSources st.live 0 st.allSources := by
        rw [hstop]
      revert hi
      rw [hlist]
      intro hi
      exact stopSources_get st.live st.allSources 0 i hi hi0
    rw [hget]
    have hmem0 : (0 + i) ∈ st.live := by simpa using hmem
    rw [if_pos hmem0, tryStop_of_started _ (hs i hi0 hmem)]
  · rw [hstop]
  · rw [hstop]
  · intro now hnow bytes
    show max (stopAudioPlayback st).cursor now = now
    rw [hstop]
    exact max_eq_right hnow
  · rw [hstop]
    simp [stopAudioPlayback, hc, stopSources_nil_live]
  · intro s hstart hstopd
    rw [tryStop_of_started s hstart]
    cases s
    simp_all

/-- C3 witness: the amended statement at the concrete state `exStopState`
(two tracked, started sources, one already finished, 7 seconds of
backlog). -/
theorem stop_audio_playback_amended_witness :
    (exStopState.hasContext = true ∧
      (∀ (i : ℕ) (hi : i < exStopState.allSources.length),
        i ∈ exStopState.live → (exStopState.allSources.get ⟨i, hi⟩).started = true)) ∧
    ((∀ (i : ℕ) (hi : i < (stopAudioPlayback exStopState).allSources.length),
        i ∈ exStopState.live →
          ((stopAudioPlayback exStopState).allSources.get ⟨i, hi⟩).stopped = true) ∧
      (stopAudioPlayback exStopState).live = [] ∧
      (stopAudioPlayback exStopState).cursor = 0 ∧
      (∀ (now : ℚ), 0 ≤ now → ∀ (bytes : List ℕ),
          (enqueueChunk (stopAudioPlayback exStopState) now bytes).2 = now) ∧
      stopAudioPlayback (stopAudioPlayback exStopState) = stopAudioPlayback exStopState ∧
      (∀ s : Source, s.started = true → s.stopped = true → tryStop s = s)) :=
  ⟨⟨rfl, by decide⟩, stop_audio_playback_amended exStopState rfl (by decide)⟩

lemma replicate_dur (n : ℕ) :
    (decodeAudioData (List.replicate n 0) 24000 1).duration = (n : ℚ) / 48000 := by
  show ((List.replicate n (0 : ℕ)).length : ℚ) / 2 / 1 / 24000 = (n : ℚ) / 48000
  rw [List.length_replicate]
  ring

/-- C2 witness: the spec scenario.  Three chunks of 0.5 s, 0.3 s and 0.7 s
(24000, 14400 and 33600 bytes of 16-bit mono PCM at 24 kHz) enqueued from a
fresh session with the output clock at 0: the chunk durations are 1/2,
3/10 and 7/10 seconds, the scheduled starts are 0, 1/2 and 4/5 seconds,
and the final cursor is 3/2, so the scheduled span is exactly 1.5 s. -/
theorem enqueue_seq_cumulative_starts_witness :
    clockBehind (max sessionStart.cursor 0 + chunkDur (0, List.replicate 24000 0)) scenarioRest ∧
    ((∀ (i : ℕ)
        (hi : i < (enqueueSeq sessionStart ((0, List.replicate 24000 0) :: scenarioRest)).2.length),
        (enqueueSeq sessionStart ((0, List.replicate 24000 0) :: scenarioRest)).2.get ⟨i, hi⟩ =
          max sessionStart.cursor 0 +
            ((((0, List.replicate 24000 0) :: scenarioRest).map chunkDur).take i).sum) ∧
      (enqueueSeq sessionStart ((0, List.replicate 24000 0) :: scenarioRest)).1.cursor =
        max sessionStart.cursor 0 +
          (((0, List.replicate 24000 0) :: scenarioRest).map chunkDur).sum) ∧
    ((0, List.replicate 24000 0) :: scenarioRest).map chunkDur = [1 / 2, 3 / 10, 7 / 10] ∧
    (enqueueSeq sessionStart ((0, List.replicate 24000 0) :: scenarioRest)).2 = [0, 1 / 2, 4 / 5] ∧
    (enqueueSeq sessionStart ((0, List.replicate 24000 0) :: scenarioRest)).1.cursor = 3 / 2 := by
  have d1 : chunkDur (0, List.replicate 24000 0) = 1 / 2 := by
    show (decodeAudioData (List.replicate 24000 0) 24000 1).duration = 1 / 2
    rw [replicate_dur]; norm_num
  have d2 : chunkDur (0, List.replicate 14400 0) = 3 / 10 := by
    show (decodeAudioData (List.replicate 14400 0) 24000 1).duration = 3 / 10
    rw [replicate_dur]; norm_num
  have d3 : chunkDur (0, List.replicate 33600 0) = 7 / 10 := by
    show (decodeAudioData (List.replicate 33600 0) 24000 1).duration = 7 / 10
    rw [replicate_dur]; norm_num
  have hdur : ((0, List.replicate 24000 0) :: scenarioRest).map chunkDur =
      [1 / 2, 3 / 10, 7 / 10] := by
    simp only [scenarioRest, List.map_cons, List.map_nil]
    rw [d1, d2, d3]
  have hcb : clockBehind (max sessionStart.cursor 0 + chunkDur (0, List.replicate 24000 0))
      scenarioRest := by
    simp only [scenarioRest, clockBehind, sessionStart]
    rw [d1, d2]
    norm_num
  have hmain := enqueue_seq_cumulative_starts sessionStart 0 (List.replicate 24000 0)
    scenarioRest hcb
  have hstarts : (enqueueSeq sessionStart ((0, List.replicate 24000 0) :: scenarioRest)).2 =
      [0, 1 / 2, 4 / 5] := by
    simp only [scenarioRest, enqueueSeq, enqueueChunk, scheduleBuf, bumpCursor, pushChunk]
    show [max sessionStart.cursor 0, max (max sessionStart.cursor 0 +
        (decodeAudioData (List.replicate 24000 0) 24000 1).duration) 0, _] = _
    rw [show (decodeAudioData (List.replicate 24000 0) 24000 1).duration = 1 / 2 from d1,
        show (decodeAudioData (List.replicate 14400 0) 24000 1).duration = 3 / 10 from d2]
    norm_num [sessionStart]
  have hcursor : (enqueueSeq sessionStart ((0, List.replicate 24000 0) :: scenarioRest)).1.cursor =
      3 / 2 := by
    simp only [scenarioRest, enqueueSeq, enqueueChunk, scheduleBuf, bumpCursor, pushChunk]
    show max (max (max sessionStart.cursor 0 +
        (decodeAudioData (List.replicate 24000 0) 24000 1).duration) 0 +
        (decodeAudioData (List.replicate 14400 0) 24000 1).duration) 0 +
        (decodeAudioData (List.replicate 33600 0) 24000 1).duration = 3 / 2
    rw [show (decodeAudioData (List.replicate 24000 0) 24000 1).duration = 1 / 2 from d1,
        show (decodeAudioData (List.replicate 14400 0) 24000 1).duration = 3 / 10 from d2,
        show (decodeAudioData (List.replicate 33600 0) 24000 1).duration = 7 / 10 from d3]
    norm_num [sessionStart]
  exact ⟨hcb, hmain, hdur, hstarts, hcursor⟩

/-! ### Claim C5 -/

/-- C5, behavior of the code at the failing input: a 4-byte chunk arrives
at clock time 2 and its decode is still in flight (the handler is parked at
the `await decodeAudioData` point) when an interrupt message is processed.
`stopAudioPlayback` runs and clears everything, yet when the decode
completes the post-await half of the handler still creates a source,
starts it (at time 0, the reset cursor), and inserts it into the live
set: the live set ends non-empty with one started source, so the chunk is
neither discarded nor kept out of the tracked set, contrary to the claim
(there is no generation or epoch token in the code). -/
theorem post_interrupt_chunk_still_scheduled :
    (enqueuePostAwait (interruptedBranch (enqueuePreAwait sessionStart 2 [0, 0, 0, 0]))
        [0, 0, 0, 0]).1.live = [0] ∧
    (enqueuePostAwait (interruptedBranch (enqueuePreAwait sessionStart 2 [0, 0, 0, 0]))
        [0, 0, 0, 0]).1.allSources.map Source.started = [true] ∧
    (enqueuePostAwait (interruptedBranch (enqueuePreAwait sessionStart 2 [0, 0, 0, 0]))
        [0, 0, 0, 0]).2 = 0 := by
  refine ⟨rfl, rfl, ?_⟩
  show (interruptedBranch (enqueuePreAwait sessionStart 2 [0, 0, 0, 0])).cursor = 0
  rfl

/-! ### Claim C6 -/

/-- C6 counterexample: the streaming handler of src/unnamed/part_001
contains no resume call at all.  An enqueue performed while the output
context is suspended schedules the chunk anyway (the live set gains a
source) and leaves the context suspended, so that handler does not resume
the device before scheduling. -/
theorem enqueue_ignores_suspended_counterexample :
    (enqueueChunk exSuspState 1 [0, 0]).1.live = [0] ∧
    (enqueueChunk exSuspState 1 [0, 0]).1.suspended = true := by
  exact ⟨rfl, rfl⟩

/-- C6 amended: the variant handler embedded in
src/components/PersonaModal.tsx does resume a suspended output context
before scheduling -- on success the context is running, the chunk is
scheduled at `max(cursor, now)` and the cursor advances past it; on
failure the rejection aborts the handler, so the chunk is dropped (never
scheduled) and the failure is reported to the caller as an error, with no
retry.  The handler of src/unnamed/part_001 instead schedules without
resuming (see the counterexample). -/
theorem enqueueV2_resumes_or_reports (st : SchedState) (now : ℚ) (bytes : List ℕ)
    (hsusp : st.suspended = true) :
    (∃ r : SchedState × ℚ, enqueueChunkV2 st now bytes true = .ok r ∧
      r.1.suspended = false ∧
      r.1.live = st.live ++ [st.allSources.length] ∧
      r.2 = max st.cursor now ∧
      r.1.cursor = max st.cursor now + (decodeAudioData bytes 24000 1).duration) ∧
    enqueueChunkV2 st now bytes false = Except.error "AudioContext resume failed" := by
  constructor
  · refine ⟨scheduleBuf (bumpCursor { pushChunk st bytes with suspended := false } now)
        (decodeAudioData bytes 24000 1).duration, ?_, rfl, rfl, rfl, rfl⟩
    simp [enqueueChunkV2, pushChunk, hsusp]
  · simp [enqueueChunkV2, pushChunk, hsusp]

/-- C6 witness: the amended statement at the concrete suspended state. -/
theorem enqueueV2_resumes_or_reports_witness :
    exSuspState.suspended = true ∧
    ((∃ r : SchedState × ℚ, enqueueChunkV2 exSuspState 1 [0, 0] true = .ok r ∧
        r.1.suspended = false ∧
        r.1.live = exSuspState.live ++ [exSuspState.allSources.length] ∧
        r.2 = max exSuspState.cursor 1 ∧
        r.1.cursor = max exSuspState.cursor 1 + (decodeAudioData [0, 0] 24000 1).duration) ∧
      enqueueChunkV2 exSuspState 1 [0, 0] false = Except.error "AudioContext resume failed") :=
  ⟨rfl, enqueueV2_resumes_or_reports exSuspState 1 [0, 0] rfl⟩

/-! ### Claim C7 -/

lemma pcmSamples_length : ∀ (bytes : List ℕ), (pcmSamples bytes).length = bytes.length / 2
  | [] => rfl
  | [_] => by simp [pcmSamples]
  | _ :: _ :: rest => by
      simp only [pcmSamples, List.length_cons, pcmSamples_length rest]
      omega

lemma pcmSamples_getD : ∀ (bytes : List ℕ) (i : ℕ), 2 * i + 1 < bytes.length →
    (pcmSamples bytes).getD i 0 =
      toFloatSample (bytes.getD (2 * i) 0) (bytes.getD (2 * i + 1) 0)
  | [], i, h => by simp at h
  | [_], i, h => by
      simp only [List.length_cons, List.length_nil] at h
      omega
  | lo :: hi :: rest, 0, _ => by
      simp [pcmSamples]
  | lo :: hi :: rest, i + 1, h => by
      have h2 : 2 * i + 1 < rest.length := by
        simp only [List.length_cons] at h
        omega
      have ih := pcmSamples_getD rest i h2
      have e1 : 2 * (i + 1) = 2 * i + 1 + 1 := by ring
      have e2 : 2 * (i + 1) + 1 = 2 * i + 1 + 1 + 1 := by ring
      simp only [pcmSamples, List.getD_cons_succ, e1, e2]
      exact ih

/-- C7: decoding a buffer of 2*N bytes at sample rate R with channel count
1 yields duration exactly N/R seconds and N samples, and the i-th output
sample is the i-th little-endian signed 16-bit input sample divided by
32768; the conversion is a total pure function, so it never fails on
even-length input. -/
theorem decode_chunk_contract (bytes : List ℕ) (N : ℕ) (R : ℚ)
    (hlen : bytes.length = 2 * N) :
    (decodeAudioData bytes R 1).duration = (N : ℚ) / R ∧
    (decodeAudioData bytes R 1).samples.length = N ∧
    (∀ i : ℕ, i < N →
      (decodeAudioData bytes R 1).samples.getD i 0 =
        (int16OfBytes (bytes.getD (2 * i) 0) (bytes.getD (2 * i + 1) 0) : ℚ) / 32768) := by
  refine ⟨?_, ?_, ?_⟩
  · show (bytes.length : ℚ) / 2 / 1 / R = (N : ℚ) / R
    rw [hlen]
    push_cast
    ring
  · show (pcmSamples bytes).length = N
    rw [pcmSamples_length, hlen]
    omega
  · intro i hi
    show (pcmSamples bytes).getD i 0 = _
    rw [pcmSamples_getD bytes i (by omega)]
    rfl

/-- C7 witness: the 4-byte chunk `[0x34, 0x12, 0xFF, 0xFF]` (N = 2) at
8000 Hz decodes to duration 2/8000 s with samples 4660/32768 and
-1/32768. -/
theorem decode_chunk_contract_witness :
    ([52, 18, 255, 255] : List ℕ).length = 2 * 2 ∧
    ((decodeAudioData [52, 18, 255, 255] 8000 1).duration = (2 : ℚ) / 8000 ∧
      (decodeAudioData [52, 18, 255, 255] 8000 1).samples.length = 2 ∧
      (∀ i : ℕ, i < 2 →
        (decodeAudioData [52, 18, 255, 255] 8000 1).samples.getD i 0 =
          (int16OfBytes (([52, 18, 255, 255] : List ℕ).getD (2 * i) 0)
              (([52, 18, 255, 255] : List ℕ).getD (2 * i + 1) 0) : ℚ) / 32768)) :=
  ⟨rfl, decode_chunk_contract [52, 18, 255, 255] 2 8000 rfl⟩

/-! ### Claim C8 -/

lemma playCycle_eq (q : Player) (n t : ℚ) :
    playCycle q n t =
      { q with offset := min (q.offset + t) q.dur, playing := false,
               startedAt := n, hasSource := true } := by
  simp only [playCycle, handlePlay, handlePlayEnv, handlePause, Bool.and_self, if_true]
  have ht : n + t - n = t := by ring
  rw [ht]

/-- C8: pausing while playing persists
`min(previous offset + (outputClock.now() - startedAt), duration)` -- so
when the accumulated time stays within the clip it is exactly the previous
offset plus the elapsed time, and a subsequent play resumes from that
offset; each full play-then-pause cycle adds the played time to the
offset, clamped at the duration so the offset never exceeds it, and three
consecutive cycles whose total stays within the clip accumulate the
offset exactly. -/
theorem pause_resume_correct (p : Player) (now : ℚ)
    (hplay : p.playing = true) (hsrc : p.hasSource = true)
    (hin : p.offset + (now - p.startedAt) ≤ p.dur) :
    (handlePause p now).offset = p.offset + (now - p.startedAt) ∧
    (∀ now2 : ℚ, (handlePlay (handlePause p now) now2).2 = p.offset + (now - p.startedAt)) ∧
    (∀ (q : Player) (n t : ℚ), (playCycle q n t).offset = min (q.offset + t) q.dur) ∧
    (∀ (q : Player) (n t : ℚ), (playCycle q n t).offset ≤ q.dur) ∧
    (∀ (q : Player) (n1 t1 n2 t2 n3 t3 : ℚ), 0 ≤ t2 → 0 ≤ t3 →
      q.offset + t1 + t2 + t3 ≤ q.dur →
      (playCycle (playCycle (playCycle q n1 t1) n2 t2) n3 t3).offset =
        q.offset + t1 + t2 + t3) := by
  have hpause : handlePause p now =
      { p with offset := min (p.offset + (now - p.startedAt)) p.dur, playing := false } := by
    simp [handlePause, hplay, hsrc]
  have hoff : (handlePause p now).offset = p.offset + (now - p.startedAt) := by
    rw [hpause]
    exact min_eq_left hin
  refine ⟨hoff, ?_, ?_, ?_, ?_⟩
  · intro now2
    show (handlePause p now).offset = _
    exact hoff
  · intro q n t
    rw [playCycle_eq]
  · intro q n t
    rw [playCycle_eq]
    exact min_le_right _ _
  · intro q n1 t1 n2 t2 n3 t3 ht2 ht3 hsum
    simp only [playCycle_eq]
    have m1 : min (q.offset + t1) q.dur = q.offset + t1 := min_eq_left (by linarith)
    rw [m1]
    have m2 : min (q.offset + t1 + t2) q.dur = q.offset + t1 + t2 := min_eq_left (by linarith)
    rw [m2]
    exact min_eq_left (by linarith)

/-- C8 witness: playing from offset 1 starting at clock time 4 and pausing
at clock time 6 (2 seconds of playback, clip duration 10). -/
theorem pause_resume_correct_witness :
    ((⟨1, true, 10, 4, true⟩ : Player).playing = true ∧
      (⟨1, true, 10, 4, true⟩ : Player).hasSource = true ∧
      (⟨1, true, 10, 4, true⟩ : Player).offset +
        (6 - (⟨1, true, 10, 4, true⟩ : Player).startedAt) ≤ (⟨1, true, 10, 4, true⟩ : Player).dur) ∧
    ((handlePause ⟨1, true, 10, 4, true⟩ 6).offset =
        (⟨1, true, 10, 4, true⟩ : Player).offset +
          (6 - (⟨1, true, 10, 4, true⟩ : Player).startedAt) ∧
      (∀ now2 : ℚ, (handlePlay (handlePause ⟨1, true, 10, 4, true⟩ 6) now2).2 =
        (⟨1, true, 10, 4, true⟩ : Player).offset +
          (6 - (⟨1, true, 10, 4, true⟩ : Player).startedAt)) ∧
      (∀ (q : Player) (n t : ℚ), (playCycle q n t).offset = min (q.offset + t) q.dur) ∧
      (∀ (q : Player) (n t : ℚ), (playCycle q n t).offset ≤ q.dur) ∧
      (∀ (q : Player) (n1 t1 n2 t2 n3 t3 : ℚ), 0 ≤ t2 → 0 ≤ t3 →
        q.offset + t1 + t2 + t3 ≤ q.dur →
        (playCycle (playCycle (playCycle q n1 t1) n2 t2) n3 t3).offset =
          q.offset + t1 + t2 + t3)) :=
  ⟨⟨rfl, rfl, by norm_num⟩,
    pause_resume_correct ⟨1, true, 10, 4, true⟩ 6 rfl rfl (by norm_num)⟩

/-! ### Claim C9 -/

/-- C9, behavior of the code at the failing input: `handleReplay` does
commit offset 0 to the component state, but the `handlePlay` it schedules
through `setTimeout` is the closure of the render in which replay was
clicked, so `const startAt = playbackOffset` reads the value captured by
that render.  Clicking replay while paused at offset 3 therefore starts the new
source at offset 3, not at the beginning of the clip, even though the
persisted offset is 0. -/
theorem replay_plays_from_stale_offset :
    (handleReplayRun ⟨3, false, 10, 0, true⟩ 5).1.offset = 0 ∧
    (handleReplayRun ⟨3, false, 10, 0, true⟩ 5).2 = 3 ∧
    ((3 : ℚ) ≠ 0) :=
  ⟨rfl, rfl, by norm_num⟩

/-! ### Claim C10 -/

lemma writeAt_length (result arr : List ℕ) (offset : ℕ)
    (h : offset + arr.length ≤ result.length) :
    (writeAt result arr offset).length = result.length := by
  simp [writeAt]
  omega

lemma writeAt_take (result arr : List ℕ) (offset : ℕ) (h : offset ≤ result.length) :
    (writeAt result arr offset).take (offset + arr.length) = result.take offset ++ arr := by
  have hlen : (result.take offset ++ arr).length = offset + arr.length := by
    simp [Nat.min_eq_left h]
  unfold writeAt
  rw [← hlen, List.take_left]

lemma writeAt_drop (result arr : List ℕ) (offset m : ℕ) (h : offset ≤ result.length) :
    (writeAt result arr offset).drop (offset + arr.length + m) =
      result.drop (offset + arr.length + m) := by
  have hlen : (result.take offset ++ arr).length = offset + arr.length := by
    simp [Nat.min_eq_left h]
  unfold writeAt
  rw [List.drop_append_eq_append_drop, hlen]
  rw [List.drop_eq_nil_of_le (by rw [hlen]; omega)]
  simp only [List.nil_append]
  have hsub : offset + arr.length + m - (offset + arr.length) = m := by omega
  rw [hsub, List.drop_drop]

lemma mergeLoop_eq : ∀ (arrays : List (List ℕ)) (result : List ℕ) (offset : ℕ),
    offset + totalLength arrays ≤ result.length →
    mergeLoop result offset arrays =
      result.take offset ++ arrays.flatten ++ result.drop (offset + totalLength arrays)
  | [], result, offset, h => by
      simp only [mergeLoop, List.flatten_nil, List.append_nil, totalLength, List.map_nil,
        List.sum_nil, Nat.add_zero]
      rw [List.take_append_drop]
  | arr :: rest, result, offset, h => by
      have htot : totalLength (arr :: rest) = arr.length + totalLength rest := by
        simp [totalLength]
      have hfit : offset + arr.length ≤ result.length := by
        rw [htot] at h
        omega
      have hoff : offset ≤ result.length := by omega
      have hrec := mergeLoop_eq rest (writeAt result arr offset) (offset + arr.length)
        (by rw [writeAt_length result arr offset hfit]; rw [htot] at h; omega)
      show mergeLoop (writeAt result arr offset) (offset + arr.length) rest = _
      rw [hrec, writeAt_take result arr offset hoff, writeAt_drop result arr offset
        (totalLength rest) hoff]
      rw [htot]
      simp only [List.flatten_cons, ← List.append_assoc, ← Nat.add_assoc]

lemma mergeUint8Arrays_eq_flatten (arrays : List (List ℕ)) :
    mergeUint8Arrays arrays = arrays.flatten := by
  unfold mergeUint8Arrays
  rw [mergeLoop_eq arrays (List.replicate (totalLength arrays) 0) 0
    (by simp [List.length_replicate])]
  simp

lemma flatten_getElem_pos : ∀ (arrays : List (List ℕ)) (k : ℕ) (hk : k < arrays.length)
    (i : ℕ), i < (arrays.get ⟨k, hk⟩).length →
    arrays.flatten[totalLength (arrays.take k) + i]? = (arrays.get ⟨k, hk⟩)[i]?
  | a :: rest, 0, hk, i, hi => by
      simp only [List.take_zero, totalLength, List.map_nil, List.sum_nil, Nat.zero_add,
        List.flatten_cons]
      exact List.getElem?_append_left hi
  | a :: rest, k + 1, hk, i, hi => by
      have hk2 : k < rest.length := by simpa using hk
      have ih := flatten_getElem_pos rest k hk2 i (by simpa using hi)
      have htake : totalLength ((a :: rest).take (k + 1)) =
          a.length + totalLength (rest.take k) := by
        simp [totalLength]
      rw [htake]
      show (a ++ rest.flatten)[a.length + totalLength (rest.take k) + i]? = _
      rw [List.getElem?_append_right (by omega)]
      have hsub : a.length + totalLength (rest.take k) + i - a.length =
          totalLength (rest.take k) + i := by omega
      rw [hsub]
      exact ih

lemma lastModelIdx_lt : ∀ (ts : List TranscriptEntry) (i : ℕ),
    lastModelIdx ts = some i → i < ts.length
  | [], i, h => by simp [lastModelIdx] at h
  | t :: rest, i, h => by
      simp only [lastModelIdx] at h
      cases hrest : lastModelIdx rest with
      | some j =>
          rw [hrest] at h
          have hij : i = j + 1 := by simpa using h.symm
          have := lastModelIdx_lt rest j hrest
          simp only [hij, List.length_cons]
          omega
      | none =>
          rw [hrest] at h
          by_cases hs : t.speaker = Speaker.model
          · simp [hs] at h
            simp [← h]
          · simp [hs] at h

lemma lastModelIdx_is_model : ∀ (ts : List TranscriptEntry) (i : ℕ),
    lastModelIdx ts = some i →
    ∃ e, ts[i]? = some e ∧ e.speaker = Speaker.model
  | [], i, h => by simp [lastModelIdx] at h
  | t :: rest, i, h => by
      simp only [lastModelIdx] at h
      cases hrest : lastModelIdx rest with
      | some j =>
          rw [hrest] at h
          have hij : i = j + 1 := by simpa using h.symm
          obtain ⟨e, he, hm⟩ := lastModelIdx_is_model rest j hrest
          exact ⟨e, by simpa [hij] using he, hm⟩
      | none =>
          rw [hrest] at h
          by_cases hs : t.speaker = Speaker.model
          · simp [hs] at h
            exact ⟨t, by simp [← h], hs⟩
          · simp [hs] at h

lemma lastModelIdx_none_no_model : ∀ (ts : List TranscriptEntry),
    lastModelIdx ts = none →
    ∀ (j : ℕ) (e : TranscriptEntry), ts[j]? = some e → e.speaker ≠ Speaker.model
  | [], _, j, e, hj => by simp at hj
  | t :: rest, h, j, e, hj => by
      simp only [lastModelIdx] at h
      cases hrest : lastModelIdx rest with
      | some m => rw [hrest] at h; simp at h
      | none =>
          rw [hrest] at h
          by_cases hs : t.speaker = Speaker.model
          · simp [hs] at h
          · cases j with
            | zero =>
                have : t = e := by simpa using hj
                rw [← this]
                exact hs
            | succ jj =>
                have hje : rest[jj]? = some e := by simpa using hj
                exact lastModelIdx_none_no_model rest hrest jj e hje

lemma lastModelIdx_last : ∀ (ts : List TranscriptEntry) (i : ℕ),
    lastModelIdx ts = some i →
    ∀ (j : ℕ), i < j → ∀ (e : TranscriptEntry), ts[j]? = some e → e.speaker ≠ Speaker.model
  | [], i, h => by simp [lastModelIdx] at h
  | t :: rest, i, h => by
      simp only [lastModelIdx] at h
      intro j hij e hj
      cases hrest : lastModelIdx rest with
      | some m =>
          rw [hrest] at h
          have him : i = m + 1 := by simpa using h.symm
          cases j with
          | zero => omega
          | succ jj =>
              have hje : rest[jj]? = some e := by simpa using hj
              exact lastModelIdx_last rest m hrest jj (by omega) e hje
      | none =>
          rw [hrest] at h
          by_cases hs : t.speaker = Speaker.model
          · simp [hs] at h
            cases j with
            | zero => omega
            | succ jj =>
                have hje : rest[jj]? = some e := by simpa using hj
                exact lastModelIdx_none_no_model rest hrest jj e hje
          · simp [hs] at h

lemma attachPcm_length : ∀ (ts : List TranscriptEntry) (i : ℕ) (pcm : List ℕ),
    (attachPcm ts i pcm).length = ts.length
  | [], _, _ => rfl
  | _ :: rest, 0, pcm => by simp [attachPcm]
  | _ :: rest, n + 1, pcm => by simp [attachPcm, attachPcm_length rest n pcm]

lemma attachPcm_getElem_eq : ∀ (ts : List TranscriptEntry) (i : ℕ) (pcm : List ℕ),
    (attachPcm ts i pcm)[i]? = (ts[i]?).map fun t => { t with pcmData := some pcm }
  | [], i, pcm => by simp [attachPcm]
  | t :: rest, 0, pcm => by simp [attachPcm]
  | t :: rest, n + 1, pcm => by
      simp only [attachPcm, List.getElem?_cons_succ]
      exact attachPcm_getElem_eq rest n pcm

lemma attachPcm_getElem_ne : ∀ (ts : List TranscriptEntry) (i : ℕ) (pcm : List ℕ)
    (j : ℕ), j ≠ i → (attachPcm ts i pcm)[j]? = ts[j]?
  | [], _, _, j, _ => by simp [attachPcm]
  | t :: rest, 0, pcm, j, h => by
      cases j with
      | zero => exact absurd rfl h
      | succ jj => simp [attachPcm]
  | t :: rest, n + 1, pcm, j, h => by
      cases j with
      | zero => simp [attachPcm]
      | succ jj =>
          simp only [attachPcm, List.getElem?_cons_succ]
          exact attachPcm_getElem_ne rest n pcm jj (by omega)

/-- C10: when a turnComplete message arrives with a non-empty accumulated
chunk list, the handler attaches the concatenation of the chunks (in
arrival order, with byte i of chunk k landing at the sum of the lengths of
the chunks before k, plus i) as the pcm payload of the last model entry,
leaves every other entry, the order, and the length unchanged, and leaves
the transcript unchanged when no model entry exists. -/
theorem turn_complete_attaches_merged_pcm (ts : List TranscriptEntry)
    (chunks : List (List ℕ)) (hne : chunks ≠ []) :
    (applyTurnComplete ts chunks).1.length = ts.length ∧
    (lastModelIdx ts = none → (applyTurnComplete ts chunks).1 = ts) ∧
    (∀ k : ℕ, lastModelIdx ts = some k →
      (applyTurnComplete ts chunks).1[k]? =
          (ts[k]?).map (fun t => { t with pcmData := some (mergeUint8Arrays chunks) }) ∧
      (∃ e, ts[k]? = some e ∧ e.speaker = Speaker.model) ∧
      (∀ (j : ℕ), k < j → ∀ (e : TranscriptEntry), ts[j]? = some e →
        e.speaker ≠ Speaker.model) ∧
      (∀ j : ℕ, j ≠ k → (applyTurnComplete ts chunks).1[j]? = ts[j]?)) ∧
    mergeUint8Arrays chunks = chunks.flatten ∧
    (∀ (k : ℕ) (hk : k < chunks.length) (i : ℕ), i < (chunks.get ⟨k, hk⟩).length →
      (mergeUint8Arrays chunks)[totalLength (chunks.take k) + i]? =
        (chunks.get ⟨k, hk⟩)[i]?) := by
  have hpos : 0 < chunks.length := List.length_pos.mpr hne
  refine ⟨?_, ?_, ?_, mergeUint8Arrays_eq_flatten chunks, ?_⟩
  · cases h : lastModelIdx ts with
    | none => simp [applyTurnComplete, hpos, h]
    | some i => simp [applyTurnComplete, hpos, h, attachPcm_length]
  · intro hnone
    simp [applyTurnComplete, hpos, hnone]
  · intro k hk
    have happ : (applyTurnComplete ts chunks).1 =
        attachPcm ts k (mergeUint8Arrays chunks) := by
      simp [applyTurnComplete, hpos, hk]
    rw [happ]
    exact ⟨attachPcm_getElem_eq ts k _, lastModelIdx_is_model ts k hk,
      lastModelIdx_last ts k hk, fun j hj => attachPcm_getElem_ne ts k _ j hj⟩
  · intro k hk i hi
    rw [mergeUint8Arrays_eq_flatten]
    exact flatten_getElem_pos chunks k hk i hi

/-- C10 witness: the concrete transcript `exTranscript` (last model entry
at index 1) and the chunks `[[1, 2], [3]]`, whose merge is `[1, 2, 3]`. -/
theorem turn_complete_attaches_merged_pcm_witness :
    exChunks ≠ [] ∧
    ((applyTurnComplete exTranscript exChunks).1.length = exTranscript.length ∧
      (lastModelIdx exTranscript = none →
        (applyTurnComplete exTranscript exChunks).1 = exTranscript) ∧
      (∀ k : ℕ, lastModelIdx exTranscript = some k →
        (applyTurnComplete exTranscript exChunks).1[k]? =
            (exTranscript[k]?).map
              (fun t => { t with pcmData := some (mergeUint8Arrays exChunks) }) ∧
        (∃ e, exTranscript[k]? = some e ∧ e.speaker = Speaker.model) ∧
        (∀ (j : ℕ), k < j → ∀ (e : TranscriptEntry), exTranscript[j]? = some e →
          e.speaker ≠ Speaker.model) ∧
        (∀ j : ℕ, j ≠ k →
          (applyTurnComplete exTranscript exChunks).1[j]? = exTranscript[j]?)) ∧
      mergeUint8Arrays exChunks = exChunks.flatten ∧
      (∀ (k : ℕ) (hk : k < exChunks.length) (i : ℕ),
        i < (exChunks.get ⟨k, hk⟩).length →
        (mergeUint8Arrays exChunks)[totalLength (exChunks.take k) + i]? =
          (exChunks.get ⟨k, hk⟩)[i]?)) :=
  ⟨by simp [exChunks], turn_complete_attaches_merged_pcm exTranscript exChunks
    (by simp [exChunks])⟩
